import Mathlib

/-!
Shallow embedding of `src/core/lib/channel/handshaker.c` (the gRPC handshake
manager) and proofs of the specification's claims about it.

Modelling conventions:

* `grpc_error*` is modelled as `Option Err`; `none` is `GRPC_ERROR_NONE`.
  `GRPC_ERROR_REF` returns the same error object (it only bumps a refcount),
  so it is the identity on the modelled value.
* The caller-supplied `void* user_data` is modelled as `U`; the zero-initialised
  `mgr->user_data` field is `Option U` (`none` is `NULL`).
* `args->user_data` is a `void*` slot that the manager aliases either to the
  manager itself (while chaining) or to the caller's user data (at the end);
  it is modelled by the sum type `ChainUserData`.
* Side effects that leave the core (starting a handshaker, shutting one down,
  arming/cancelling the deadline timer, scheduling the terminal callback,
  destruction of resources) are recorded as an event trace `List HSEvent`.
* A concrete handshaker (external to this core, consumed through the vtable)
  is modelled by the §4.1 contract of the spec: when started it eventually
  invokes the completion closure with a possibly mutated payload
  (endpoint / channel args / read buffer) and an error value.  The
  `user_data` slot of the args belongs to the manager's chaining protocol and
  is not part of the payload a stage may rewrite.
* `GPR_ASSERT` failure and undefined behaviour (recovering the manager from an
  `args->user_data` that does not point at it, indexing outside the
  handshaker array) are modelled by `Option`/`none` results.
-/

namespace HandshakerModel

/-- The mutable payload of `grpc_handshaker_args` that handshake stages may
read and rewrite: the transport endpoint, the (copied) channel args, and the
pending read buffer. -/
structure HandshakerPayload (E CA : Type) where
  endpoint : E
  channel_args : CA
  read_buffer : List Nat
deriving Repr, DecidableEq

/-- The `void* user_data` slot of `grpc_handshaker_args`: while chaining it
aliases the handshake manager itself; at the terminal condition it is
overwritten with `mgr->user_data` (the caller-supplied pointer, possibly
`NULL`, hence `Option U`). -/
inductive ChainUserData (U : Type) where
  | mgrPtr : ChainUserData U
  | caller : Option U → ChainUserData U
deriving Repr, DecidableEq

/-- `grpc_handshaker_args`: endpoint, channel args and read buffer (the
payload stages rewrite) plus the manager-owned `user_data` slot. -/
structure grpc_handshaker_args (E CA U : Type) where
  payload : HandshakerPayload E CA
  user_data : ChainUserData U

/-- A handshaker as the manager sees it (the vtable contract of §4.1): once
started, it completes by invoking the completion closure with the possibly
mutated payload and an error value (`none` = success). -/
structure grpc_handshaker (Err E CA : Type) where
  run : HandshakerPayload E CA → HandshakerPayload E CA × Option Err

/-- Observable side effects of the manager, in program order. -/
inductive HSEvent (Err U : Type) where
  /-- `grpc_handshaker_do_handshake` invoked on the handshaker at this index. -/
  | started : Nat → HSEvent Err U
  /-- `grpc_handshaker_shutdown` invoked on the handshaker at this index. -/
  | shutdownHandshaker : Nat → HSEvent Err U
  /-- `grpc_timer_init`: the deadline timer armed with this deadline. -/
  | timerInit : Nat → HSEvent Err U
  /-- `grpc_timer_cancel` on the deadline timer. -/
  | timerCancel : HSEvent Err U
  /-- `grpc_exec_ctx_sched` of the terminal `on_handshake_done` closure, with
  the error passed to it and the value of `args->user_data` at that moment. -/
  | schedTerminal : Option Err → ChainUserData U → HSEvent Err U
  /-- `grpc_handshaker_destroy` on the handshaker at this index. -/
  | destroyHandshaker : Nat → HSEvent Err U
  /-- `gpr_free(mgr->handshakers)`. -/
  | freeHandshakers : HSEvent Err U
  /-- `gpr_mu_destroy(&mgr->mu)`. -/
  | muDestroy : HSEvent Err U
  /-- `gpr_free(mgr)`. -/
  | freeMgr : HSEvent Err U
deriving Repr, DecidableEq

/-- `struct grpc_handshake_manager`.  The mutex, the two reusable closures,
the acceptor and the embedded timer struct carry no model-visible state; the
backing array is modelled by its contents (`handshakers`) together with its
allocated size in slots (`capacity`). -/
structure grpc_handshake_manager (Err E CA U : Type) where
  refs : Nat
  count : Nat
  capacity : Nat
  handshakers : List (grpc_handshaker Err E CA)
  index : Nat
  user_data : Option U

variable {Err E CA U : Type}

/-- `grpc_handshake_manager_create`: zeroed storage, refcount 1. -/
def grpc_handshake_manager_create : grpc_handshake_manager Err E CA U :=
  { refs := 1, count := 0, capacity := 0, handshakers := [], index := 0,
    user_data := none }

/-- `is_power_of_2` from the source: `(n & (n - 1)) == 0`. -/
def is_power_of_2 (n : Nat) : Bool := (n &&& (n - 1)) == 0

/-- The `realloc_count` computed at the top of `grpc_handshake_manager_add`
(0 means no reallocation). -/
def add_realloc_count (count : Nat) : Nat :=
  if count = 0 then 2
  else if 2 ≤ count ∧ is_power_of_2 count = true then count * 2
  else 0

/-- `grpc_handshake_manager_add`: possibly grow the backing array, then
append the handshaker at index `count` and bump `count`. -/
def grpc_handshake_manager_add (mgr : grpc_handshake_manager Err E CA U)
    (handshaker : grpc_handshaker Err E CA) : grpc_handshake_manager Err E CA U :=
  let realloc_count := add_realloc_count mgr.count
  { mgr with
    capacity := if 0 < realloc_count then realloc_count else mgr.capacity,
    handshakers := mgr.handshakers ++ [handshaker],
    count := mgr.count + 1 }

/-- The destruction sequence run when the refcount reaches zero: every
registered handshaker destroyed in registration order, backing storage freed,
lock destroyed, manager freed. -/
def destruction_events (count : Nat) : List (HSEvent Err U) :=
  (List.range count).map HSEvent.destroyHandshaker
    ++ [HSEvent.freeHandshakers, HSEvent.muDestroy, HSEvent.freeMgr]

/-- `grpc_handshake_manager_unref`: drop one reference; if it was the last,
perform the destruction sequence. -/
def grpc_handshake_manager_unref (mgr : grpc_handshake_manager Err E CA U) :
    grpc_handshake_manager Err E CA U × List (HSEvent Err U) :=
  let mgr' := { mgr with refs := mgr.refs - 1 }
  if mgr'.refs = 0 then (mgr', destruction_events mgr'.count) else (mgr', [])

/-- `grpc_handshake_manager_destroy`: releases the caller's reference. -/
def grpc_handshake_manager_destroy (mgr : grpc_handshake_manager Err E CA U) :
    grpc_handshake_manager Err E CA U × List (HSEvent Err U) :=
  grpc_handshake_manager_unref mgr

/-- `grpc_handshake_manager_shutdown`: under the lock, shut down every
registered handshaker (indices `0 .. count-1`), touching nothing else. -/
def grpc_handshake_manager_shutdown (mgr : grpc_handshake_manager Err E CA U) :
    grpc_handshake_manager Err E CA U × List (HSEvent Err U) :=
  (mgr, (List.range mgr.count).map HSEvent.shutdownHandshaker)

/-- Result of one `call_next_handshaker_locked` step: either the terminal
callback was scheduled, or the handshaker at the given index was started. -/
inductive AdvanceResult (Err E CA U : Type) where
  | finished : grpc_handshake_manager Err E CA U → grpc_handshaker_args E CA U →
      List (HSEvent Err U) → AdvanceResult Err E CA U
  | started : Nat → grpc_handshake_manager Err E CA U →
      grpc_handshaker_args E CA U → List (HSEvent Err U) → AdvanceResult Err E CA U

/-- `call_next_handshaker_locked`.  The leading `if` is `GPR_ASSERT(mgr->index
<= mgr->count)` (`none` = assertion failure).  On error or exhaustion: cancel
the timer, restore `args->user_data` to the caller's user data, schedule the
terminal callback with `GRPC_ERROR_REF(error)` (the same error value), release
the chain's reference.  Otherwise: start the handshaker at `index` and
increment `index`. -/
def call_next_handshaker_locked (mgr : grpc_handshake_manager Err E CA U)
    (args : grpc_handshaker_args E CA U) (error : Option Err) :
    Option (AdvanceResult Err E CA U) :=
  if mgr.index ≤ mgr.count then
    if error.isSome = true ∨ mgr.index = mgr.count then
      let args' := { args with user_data := ChainUserData.caller mgr.user_data }
      let r := grpc_handshake_manager_unref mgr
      some (AdvanceResult.finished r.1 args'
        (HSEvent.timerCancel :: HSEvent.schedTerminal error args'.user_data :: r.2))
    else
      some (AdvanceResult.started mgr.index { mgr with index := mgr.index + 1 }
        args [HSEvent.started mgr.index])
  else none

/-- The chaining loop of an active handshake: one `call_next_handshaker_locked`
step; when a handshaker was started, it eventually completes — invoking the
`call_next_handshaker` closure, which recovers the manager from
`args->user_data` (which must alias the manager; anything else is undefined
behaviour, modelled as `none`) and re-enters the locked step with the stage's
error.  `fuel` bounds the recursion; every real execution needs at most
`count - index + 1` steps. -/
def runChain (fuel : Nat) (mgr : grpc_handshake_manager Err E CA U)
    (args : grpc_handshaker_args E CA U) (error : Option Err) :
    Option (grpc_handshake_manager Err E CA U × grpc_handshaker_args E CA U ×
      List (HSEvent Err U)) :=
  match fuel with
  | 0 => none
  | fuel' + 1 =>
    match call_next_handshaker_locked mgr args error with
    | none => none
    | some (AdvanceResult.finished mgr' args' evs) => some (mgr', args', evs)
    | some (AdvanceResult.started i mgr' args' evs) =>
      match mgr'.handshakers[i]? with
      | none => none
      | some h =>
        let r := h.run args'.payload
        let args2 := { args' with payload := r.1 }
        match args2.user_data with
        | ChainUserData.caller _ => none
        | ChainUserData.mgrPtr =>
          match runChain fuel' mgr' args2 r.2 with
          | none => none
          | some (mgrf, argsf, evs2) => some (mgrf, argsf, evs ++ evs2)

/-- The args record built at the top of `grpc_handshake_manager_do_handshake`:
takes ownership of the endpoint, copies the channel args, starts with an empty
read buffer, and (line 223) aliases `args->user_data` to the manager. -/
def initial_handshaker_args (endpoint : E) (channel_args : CA) :
    grpc_handshaker_args E CA U :=
  { payload := { endpoint := endpoint, channel_args := channel_args,
                 read_buffer := [] },
    user_data := ChainUserData.mgrPtr }

/-- `grpc_handshake_manager_do_handshake`, composed with the asynchronous
completion of every handshaker it starts.  The guard is
`GPR_ASSERT(mgr->index == 0)`.  It records the caller's user data, takes one
reference for the deadline timer and arms it, takes one reference for the
chain, and runs the first advance step (and, transitively, the whole chain). -/
def grpc_handshake_manager_do_handshake (mgr : grpc_handshake_manager Err E CA U)
    (endpoint : E) (channel_args : CA) (deadline : Nat) (user_data : U) :
    Option (grpc_handshake_manager Err E CA U × grpc_handshaker_args E CA U ×
      List (HSEvent Err U)) :=
  let args : grpc_handshaker_args E CA U :=
    initial_handshaker_args endpoint channel_args
  if mgr.index = 0 then
    let mgr1 := { mgr with user_data := some user_data, refs := mgr.refs + 1 + 1 }
    match runChain (mgr1.count + 1) mgr1 args none with
    | none => none
    | some (mgrf, argsf, evs) =>
      some (mgrf, argsf, HSEvent.timerInit deadline :: evs)
  else none

/-- `on_timeout`: if the timer actually fired (`error == GRPC_ERROR_NONE`),
shut the manager down; in both cases release the timer's reference. -/
def on_timeout (mgr : grpc_handshake_manager Err E CA U) (error : Option Err) :
    grpc_handshake_manager Err E CA U × List (HSEvent Err U) :=
  if error.isNone = true then
    let s := grpc_handshake_manager_shutdown mgr
    let u := grpc_handshake_manager_unref s.1
    (u.1, s.2 ++ u.2)
  else
    grpc_handshake_manager_unref mgr

/-- A manager built by `create` followed by `add` for each element of `hs`,
in order. -/
def grpc_handshake_manager_of_list (hs : List (grpc_handshaker Err E CA)) :
    grpc_handshake_manager Err E CA U :=
  hs.foldl grpc_handshake_manager_add grpc_handshake_manager_create

/-- Indices of `started` events, in trace order. -/
def started_indices (evs : List (HSEvent Err U)) : List Nat :=
  evs.filterMap fun e =>
    match e with
    | HSEvent.started i => some i
    | _ => none

/-- Indices of `shutdownHandshaker` events, in trace order. -/
def shutdown_indices (evs : List (HSEvent Err U)) : List Nat :=
  evs.filterMap fun e =>
    match e with
    | HSEvent.shutdownHandshaker i => some i
    | _ => none

/-- The `schedTerminal` events of a trace. -/
def terminal_events (evs : List (HSEvent Err U)) : List (HSEvent Err U) :=
  evs.filter fun e =>
    match e with
    | HSEvent.schedTerminal _ _ => true
    | _ => false

/-- The errors handed to the terminal callback, in trace order. -/
def terminal_errors (evs : List (HSEvent Err U)) : List (Option Err) :=
  evs.filterMap fun e =>
    match e with
    | HSEvent.schedTerminal err _ => some err
    | _ => none

/-- Whether an event belongs to the destruction sequence. -/
def is_destruction_event : HSEvent Err U → Bool
  | HSEvent.destroyHandshaker _ => true
  | HSEvent.freeHandshakers => true
  | HSEvent.muDestroy => true
  | HSEvent.freeMgr => true
  | _ => false

/-- The allocation invariant of the backing array: the zeroed storage of a
fresh manager, or a power-of-two capacity `2 ^ k` (`k ≥ 1`) that holds all
`count` elements and is tight (`2 ^ (k - 1)` slots would not suffice, except
that the capacity never shrinks below the initial allocation of 2). -/
def capacity_inv (mgr : grpc_handshake_manager Err E CA U) : Prop :=
  (mgr.count = 0 → mgr.capacity = 0) ∧
  (1 ≤ mgr.count → ∃ k, 1 ≤ k ∧ mgr.capacity = 2 ^ k ∧
    mgr.count ≤ 2 ^ k ∧ 2 ^ (k - 1) < max mgr.count 2)

/-- A handshake stage that always succeeds and leaves the payload alone,
used to instantiate the theorems on concrete inputs. -/
def ok_handshaker : grpc_handshaker Nat Nat Nat :=
  { run := fun p => (p, none) }

/-- A handshake stage that always fails with the given error, used to
instantiate the theorems on concrete inputs. -/
def failing_handshaker (e : Nat) : grpc_handshaker Nat Nat Nat :=
  { run := fun p => (p, some e) }

/-! ### Basic lemmas about the operations -/

lemma unref_fst (mgr : grpc_handshake_manager Err E CA U) :
    (grpc_handshake_manager_unref mgr).1 = { mgr with refs := mgr.refs - 1 } := by
  unfold grpc_handshake_manager_unref
  dsimp only
  split <;> rfl

lemma unref_snd_of_two_le (mgr : grpc_handshake_manager Err E CA U)
    (h : 2 ≤ mgr.refs) : (grpc_handshake_manager_unref mgr).2 = [] := by
  unfold grpc_handshake_manager_unref
  dsimp only
  split
  · omega
  · rfl

lemma unref_snd_of_one (mgr : grpc_handshake_manager Err E CA U)
    (h : mgr.refs = 1) :
    (grpc_handshake_manager_unref mgr).2 = destruction_events mgr.count := by
  unfold grpc_handshake_manager_unref
  dsimp only
  split
  · rfl
  · omega

lemma add_fields (mgr : grpc_handshake_manager Err E CA U)
    (h : grpc_handshaker Err E CA) :
    (grpc_handshake_manager_add mgr h).index = mgr.index ∧
    (grpc_handshake_manager_add mgr h).refs = mgr.refs ∧
    (grpc_handshake_manager_add mgr h).user_data = mgr.user_data ∧
    (grpc_handshake_manager_add mgr h).count = mgr.count + 1 ∧
    (grpc_handshake_manager_add mgr h).handshakers = mgr.handshakers ++ [h] := by
  unfold grpc_handshake_manager_add
  exact ⟨rfl, rfl, rfl, rfl, rfl⟩

lemma foldl_add_fields (hs : List (grpc_handshaker Err E CA)) :
    ∀ (m : grpc_handshake_manager Err E CA U),
    (hs.foldl grpc_handshake_manager_add m).index = m.index ∧
    (hs.foldl grpc_handshake_manager_add m).refs = m.refs ∧
    (hs.foldl grpc_handshake_manager_add m).user_data = m.user_data ∧
    (hs.foldl grpc_handshake_manager_add m).count = m.count + hs.length ∧
    (hs.foldl grpc_handshake_manager_add m).handshakers = m.handshakers ++ hs := by
  induction hs with
  | nil => intro m; simp
  | cons h t ih =>
    intro m
    obtain ⟨i1, r1, u1, c1, l1⟩ := ih (grpc_handshake_manager_add m h)
    obtain ⟨i2, r2, u2, c2, l2⟩ := add_fields m h
    refine ⟨?_, ?_, ?_, ?_, ?_⟩ <;>
      simp only [List.foldl_cons, i1, r1, u1, c1, l1, i2, r2, u2, c2, l2,
        List.length_cons, List.append_assoc, List.singleton_append] <;> omega

lemma of_list_index (hs : List (grpc_handshaker Err E CA)) :
    (grpc_handshake_manager_of_list (U := U) hs).index = 0 :=
  (foldl_add_fields hs _).1

lemma of_list_refs (hs : List (grpc_handshaker Err E CA)) :
    (grpc_handshake_manager_of_list (U := U) hs).refs = 1 :=
  (foldl_add_fields hs _).2.1

lemma of_list_user_data (hs : List (grpc_handshaker Err E CA)) :
    (grpc_handshake_manager_of_list (U := U) hs).user_data = none :=
  (foldl_add_fields hs _).2.2.1

lemma of_list_count (hs : List (grpc_handshaker Err E CA)) :
    (grpc_handshake_manager_of_list (U := U) hs).count = hs.length := by
  have := (foldl_add_fields (U := U) hs grpc_handshake_manager_create).2.2.2.1
  simpa [grpc_handshake_manager_of_list, grpc_handshake_manager_create] using this

lemma of_list_handshakers (hs : List (grpc_handshaker Err E CA)) :
    (grpc_handshake_manager_of_list (U := U) hs).handshakers = hs := by
  have := (foldl_add_fields (U := U) hs grpc_handshake_manager_create).2.2.2.2
  simpa [grpc_handshake_manager_of_list, grpc_handshake_manager_create] using this

/-! ### The power-of-two bit trick -/

lemma is_power_of_2_pow (j : Nat) : is_power_of_2 (2 ^ j) = true := by
  unfold is_power_of_2
  rw [beq_iff_eq]
  apply Nat.eq_of_testBit_eq
  intro i
  rw [Nat.testBit_and, Nat.zero_testBit]
  by_cases hji : j = i
  · subst hji
    simp [Nat.testBit_two_pow_sub_one]
  · simp [Nat.testBit_two_pow_of_ne hji]

lemma testBit_of_div_bounds {m k : Nat} (h1 : 2 ^ k ≤ m) (h2 : m < 2 ^ (k + 1)) :
    m.testBit k = true := by
  have hpos : 0 < 2 ^ k := Nat.pos_pow_of_pos k (by norm_num)
  have d1 : 1 ≤ m / 2 ^ k := (Nat.one_le_div_iff hpos).2 h1
  have d2 : m / 2 ^ k < 2 := by
    rw [Nat.div_lt_iff_lt_mul hpos]
    calc m < 2 ^ (k + 1) := h2
    _ = 2 * 2 ^ k := by ring
  have hdiv : m / 2 ^ k = 1 := by omega
  rw [Nat.testBit_to_div_mod, hdiv]
  rfl

lemma pow2_of_is_power_of_2 {n : Nat} (h1 : 1 ≤ n)
    (h : is_power_of_2 n = true) : ∃ j, n = 2 ^ j := by
  unfold is_power_of_2 at h
  rw [beq_iff_eq] at h
  refine ⟨Nat.log 2 n, ?_⟩
  by_contra hne
  have hlow : 2 ^ Nat.log 2 n ≤ n := Nat.pow_log_le_self 2 (by omega)
  have hhigh : n < 2 ^ (Nat.log 2 n + 1) := Nat.lt_pow_succ_log_self (by norm_num) n
  have hlt : 2 ^ Nat.log 2 n < n := lt_of_le_of_ne hlow (fun e => hne e.symm)
  have hb1 : n.testBit (Nat.log 2 n) = true := testBit_of_div_bounds hlow hhigh
  have hb2 : (n - 1).testBit (Nat.log 2 n) = true :=
    testBit_of_div_bounds (by omega) (by omega)
  have hb : (n &&& (n - 1)).testBit (Nat.log 2 n) = true := by
    rw [Nat.testBit_and, hb1, hb2]
    rfl
  rw [h, Nat.zero_testBit] at hb
  exact Bool.false_ne_true hb

lemma is_power_of_2_iff {n : Nat} (h1 : 1 ≤ n) :
    is_power_of_2 n = true ↔ ∃ j, n = 2 ^ j :=
  ⟨pow2_of_is_power_of_2 h1, fun ⟨j, hj⟩ => hj ▸ is_power_of_2_pow j⟩

/-! ### The capacity invariant of the backing array -/

lemma add_capacity (mgr : grpc_handshake_manager Err E CA U)
    (h : grpc_handshaker Err E CA) :
    (grpc_handshake_manager_add mgr h).capacity =
      if 0 < add_realloc_count mgr.count then add_realloc_count mgr.count
      else mgr.capacity := rfl

lemma add_realloc_count_zero : add_realloc_count 0 = 2 := rfl

lemma add_realloc_count_one : add_realloc_count 1 = 0 := rfl

lemma add_realloc_count_of_pow {c : Nat} (h2 : 2 ≤ c)
    (hp : is_power_of_2 c = true) : add_realloc_count c = c * 2 := by
  unfold add_realloc_count
  rw [if_neg (by omega), if_pos ⟨h2, hp⟩]

lemma add_realloc_count_of_not_pow {c : Nat} (h1 : 1 ≤ c)
    (hp : ¬ (2 ≤ c ∧ is_power_of_2 c = true)) : add_realloc_count c = 0 := by
  unfold add_realloc_count
  rw [if_neg (by omega), if_neg hp]

lemma capacity_inv_create : capacity_inv (grpc_handshake_manager_create :
    grpc_handshake_manager Err E CA U) := by
  constructor
  · intro _; rfl
  · intro h; simp [grpc_handshake_manager_create] at h

lemma pow_le_pow_exp {a b : Nat} (h : 2 ^ a ≤ 2 ^ b) : a ≤ b := by
  by_contra hab
  have : 2 ^ b < 2 ^ a := Nat.pow_lt_pow_right (by norm_num) (by omega)
  omega

lemma capacity_inv_add (mgr : grpc_handshake_manager Err E CA U)
    (h : grpc_handshaker Err E CA) (hm : capacity_inv mgr) :
    capacity_inv (grpc_handshake_manager_add mgr h) := by
  obtain ⟨h0, h1⟩ := hm
  have hcount : (grpc_handshake_manager_add mgr h).count = mgr.count + 1 :=
    (add_fields mgr h).2.2.2.1
  have hcap := add_capacity mgr h
  constructor
  · intro hc; omega
  · intro _
    rcases Nat.eq_zero_or_pos mgr.count with hc0 | hcpos
    · -- first add: realloc to 2
      refine ⟨1, le_refl 1, ?_, ?_, ?_⟩ <;>
        simp [hcap, hc0, add_realloc_count_zero, hcount] <;> omega
    · obtain ⟨k, hk1, hcapk, hle, htight⟩ := h1 hcpos
      by_cases hc1 : mgr.count = 1
      · -- count 1 -> 2, no realloc; the invariant forces capacity = 2
        have hk : k = 1 := by
          have : 2 ^ (k - 1) < 2 := by
            simpa [hc1] using htight
          have : k - 1 = 0 := by
            by_contra hk0
            have h2le : 2 ≤ 2 ^ (k - 1) := by
              calc (2 : Nat) = 2 ^ 1 := by norm_num
              _ ≤ 2 ^ (k - 1) := Nat.pow_le_pow_right (by norm_num) (by omega)
            omega
          omega
        refine ⟨1, le_refl 1, ?_, ?_, ?_⟩
        · rw [hcap, hc1, add_realloc_count_one, if_neg (by omega), hcapk, hk]
        · omega
        · simp [hcount, hc1]
      · have hc2 : 2 ≤ mgr.count := by omega
        by_cases hp : is_power_of_2 mgr.count = true
        · -- count is a power of two: realloc to 2 * count = 2 ^ (k + 1)
          obtain ⟨j, hj⟩ := pow2_of_is_power_of_2 (by omega) hp
          have hmax : max mgr.count 2 = mgr.count := by omega
          rw [hmax] at htight
          have hjk : j = k := by
            have hjle : j ≤ k := pow_le_pow_exp (by omega)
            have hklt : k - 1 < j := by
              by_contra hlt
              have : 2 ^ j ≤ 2 ^ (k - 1) :=
                Nat.pow_le_pow_right (by norm_num) (by omega)
              omega
            omega
          refine ⟨k + 1, by omega, ?_, ?_, ?_⟩
          · rw [hcap, add_realloc_count_of_pow hc2 hp, if_pos (by omega),
              hj, hjk, pow_succ]
          · have : mgr.count + 1 ≤ mgr.count * 2 := by omega
            rw [hcount, pow_succ, ← hjk, ← hj]
            omega
          · have : 2 ^ (k + 1 - 1) = mgr.count := by
              rw [hj, hjk]; rfl
            rw [hcount, this]
            omega
        · -- count not a power of two: no realloc, still fits
          have hne : mgr.count ≠ 2 ^ k := by
            intro he
            exact hp (he ▸ is_power_of_2_pow k)
          refine ⟨k, hk1, ?_, ?_, ?_⟩
          · rw [hcap, add_realloc_count_of_not_pow (by omega)
              (fun hc => hp hc.2), if_neg (by omega)]
            exact hcapk
          · rw [hcount]; omega
          · have hmax : max mgr.count 2 = mgr.count := by omega
            rw [hmax] at htight
            have hmax' : max (mgr.count + 1) 2 = mgr.count + 1 := by omega
            rw [hcount, hmax']
            omega

lemma capacity_inv_foldl (hs : List (grpc_handshaker Err E CA)) :
    ∀ (m : grpc_handshake_manager Err E CA U), capacity_inv m →
      capacity_inv (hs.foldl grpc_handshake_manager_add m) := by
  induction hs with
  | nil => intro m hm; exact hm
  | cons h t ih =>
    intro m hm
    exact ih _ (capacity_inv_add m h hm)

lemma capacity_inv_of_list (hs : List (grpc_handshaker Err E CA)) :
    capacity_inv (grpc_handshake_manager_of_list (U := U) hs) :=
  capacity_inv_foldl hs _ capacity_inv_create

/-! ### Evaluating the trace observers -/

lemma terminal_events_cons_started (i : Nat) (evs : List (HSEvent Err U)) :
    terminal_events (HSEvent.started i :: evs) = terminal_events evs := rfl

lemma terminal_events_cons_timerCancel (evs : List (HSEvent Err U)) :
    terminal_events (HSEvent.timerCancel :: evs) = terminal_events evs := rfl

lemma terminal_events_cons_sched (e : Option Err) (ud : ChainUserData U)
    (evs : List (HSEvent Err U)) :
    terminal_events (HSEvent.schedTerminal e ud :: evs) =
      HSEvent.schedTerminal e ud :: terminal_events evs := rfl

lemma terminal_events_destruction (n : Nat) :
    terminal_events ((destruction_events n : List (HSEvent Err U))) = [] := by
  unfold destruction_events terminal_events
  rw [List.filter_append]
  have h1 : ((List.range n).map
      (HSEvent.destroyHandshaker : Nat → HSEvent Err U)).filter
      (fun e => match e with | HSEvent.schedTerminal _ _ => true | _ => false)
      = [] := by
    induction (List.range n) with
    | nil => rfl
    | cons a t ih => simpa using ih
  rw [h1]
  rfl

lemma filter_destruction_cons_started (i : Nat) (evs : List (HSEvent Err U)) :
    (HSEvent.started i :: evs).filter is_destruction_event =
      evs.filter is_destruction_event := rfl

/-! ### The two branches of the advance step -/

lemma locked_terminal (mgr : grpc_handshake_manager Err E CA U)
    (args : grpc_handshaker_args E CA U) (error : Option Err)
    (hidx : mgr.index ≤ mgr.count)
    (hterm : error.isSome = true ∨ mgr.index = mgr.count) :
    call_next_handshaker_locked mgr args error =
      some (AdvanceResult.finished { mgr with refs := mgr.refs - 1 }
        { args with user_data := ChainUserData.caller mgr.user_data }
        (HSEvent.timerCancel ::
          HSEvent.schedTerminal error (ChainUserData.caller mgr.user_data) ::
          (grpc_handshake_manager_unref mgr).2)) := by
  unfold call_next_handshaker_locked
  rw [if_pos hidx, if_pos hterm]
  dsimp only
  rw [unref_fst]

lemma locked_start (mgr : grpc_handshake_manager Err E CA U)
    (args : grpc_handshaker_args E CA U)
    (hlt : mgr.index < mgr.count) :
    call_next_handshaker_locked mgr args none =
      some (AdvanceResult.started mgr.index { mgr with index := mgr.index + 1 }
        args [HSEvent.started mgr.index]) := by
  unfold call_next_handshaker_locked
  rw [if_pos (by omega), if_neg (by simp; omega)]

/-- Master lemma about the chaining loop: from any state satisfying the
representation invariant, with enough fuel, the loop terminates without
tripping the `GPR_ASSERT`, preserves the handshaker list, moves the cursor
monotonically without passing `count`, releases exactly the chain's
reference, restores the caller's user data into the args, schedules the
terminal callback exactly once (with the caller's user data visible), and —
as long as another owner still holds a reference — performs no destruction. -/
theorem runChain_total (fuel : Nat) :
    ∀ (mgr : grpc_handshake_manager Err E CA U)
      (args : grpc_handshaker_args E CA U) (error : Option Err),
      mgr.handshakers.length = mgr.count →
      mgr.index ≤ mgr.count →
      mgr.count - mgr.index < fuel →
      args.user_data = ChainUserData.mgrPtr →
      ∃ mgr' args' evs,
        runChain fuel mgr args error = some (mgr', args', evs) ∧
        mgr'.count = mgr.count ∧
        mgr'.handshakers = mgr.handshakers ∧
        mgr'.capacity = mgr.capacity ∧
        mgr'.user_data = mgr.user_data ∧
        mgr.index ≤ mgr'.index ∧
        mgr'.index ≤ mgr'.count ∧
        mgr'.refs = mgr.refs - 1 ∧
        args'.user_data = ChainUserData.caller mgr.user_data ∧
        (∃ e', terminal_events evs =
          [HSEvent.schedTerminal e' (ChainUserData.caller mgr.user_data)]) ∧
        (2 ≤ mgr.refs → evs.filter is_destruction_event = []) := by
  induction fuel with
  | zero => intro mgr args error _ _ hfuel _; omega
  | succ fuel ih =>
    intro mgr args error hlen hidx hfuel hud
    by_cases hterm : error.isSome = true ∨ mgr.index = mgr.count
    · have hlock := locked_terminal mgr args error hidx hterm
      refine ⟨{ mgr with refs := mgr.refs - 1 },
        { args with user_data := ChainUserData.caller mgr.user_data },
        HSEvent.timerCancel ::
          HSEvent.schedTerminal error (ChainUserData.caller mgr.user_data) ::
          (grpc_handshake_manager_unref mgr).2,
        ?_, rfl, rfl, rfl, rfl, le_refl _, hidx, rfl, rfl, ?_, ?_⟩
      · simp only [runChain, hlock]
      · refine ⟨error, ?_⟩
        rcases Nat.lt_or_ge mgr.refs 2 with hr | hr
        · rcases Nat.eq_zero_or_pos mgr.refs with h0 | h1
          · have : (grpc_handshake_manager_unref mgr).2 =
                destruction_events mgr.count := by
              unfold grpc_handshake_manager_unref
              dsimp only
              rw [if_pos (by omega)]
            rw [this, terminal_events_cons_timerCancel,
              terminal_events_cons_sched, terminal_events_destruction]
          · have : (grpc_handshake_manager_unref mgr).2 =
                destruction_events mgr.count :=
              unref_snd_of_one mgr (by omega)
            rw [this, terminal_events_cons_timerCancel,
              terminal_events_cons_sched, terminal_events_destruction]
        · rw [unref_snd_of_two_le mgr hr]
          rfl
      · intro hr
        rw [unref_snd_of_two_le mgr hr]
        rfl
    · push_neg at hterm
      obtain ⟨herr', hne⟩ := hterm
      have herr : error = none := by
        cases error
        · rfl
        · simp at herr'
      subst herr
      have hlt : mgr.index < mgr.count := by omega
      have hlock := locked_start mgr args hlt
      have hltl : mgr.index < mgr.handshakers.length := by omega
      have hget : mgr.handshakers[mgr.index]? = some mgr.handshakers[mgr.index] :=
        List.getElem?_eq_getElem hltl
      obtain ⟨mgr', args', evs2, hrun2, hcnt, hhs, hcap, hudm, hmono, hbound,
        hrefs, haud, hterm1, hdest⟩ :=
        ih { mgr with index := mgr.index + 1 }
          { args with payload := (mgr.handshakers[mgr.index].run args.payload).1 }
          (mgr.handshakers[mgr.index].run args.payload).2
          hlen (by dsimp only; omega) (by dsimp only; omega) hud
      dsimp only at hcnt hhs hcap hudm hmono hbound hrefs haud hterm1 hdest
      refine ⟨mgr', args', HSEvent.started mgr.index :: evs2, ?_, hcnt, hhs,
        hcap, hudm, by omega, hbound, hrefs, haud, ?_, ?_⟩
      · rw [hud] at hrun2
        simp only [runChain, hlock]
        try dsimp only
        rw [hget]
        try dsimp only
        rw [hud]
        try dsimp only
        rw [hrun2]
        rfl
      · rw [terminal_events_cons_started]
        exact hterm1
      · intro hrge
        rw [filter_destruction_cons_started]
        exact hdest hrge

/-- An advance step entered with a stage error immediately schedules the
terminal callback with that very error. -/
lemma runChain_some_error (fuel : Nat) (mgr : grpc_handshake_manager Err E CA U)
    (args : grpc_handshaker_args E CA U) (e : Err)
    (hidx : mgr.index ≤ mgr.count) (hf : 1 ≤ fuel) (hr : 2 ≤ mgr.refs) :
    runChain fuel mgr args (some e) =
      some ({ mgr with refs := mgr.refs - 1 },
        { args with user_data := ChainUserData.caller mgr.user_data },
        [HSEvent.timerCancel,
         HSEvent.schedTerminal (some e) (ChainUserData.caller mgr.user_data)]) := by
  cases fuel with
  | zero => omega
  | succ fuel =>
    have hlock := locked_terminal mgr args (some e) hidx (Or.inl rfl)
    simp only [runChain, hlock]
    rw [unref_snd_of_two_le mgr hr]

/-- When every registered handshaker succeeds, the chain starts the
handshakers from the cursor to the end, in order, then cancels the timer and
schedules the terminal callback once with no error. -/
theorem runChain_all_none (fuel : Nat) :
    ∀ (mgr : grpc_handshake_manager Err E CA U)
      (args : grpc_handshaker_args E CA U),
      mgr.handshakers.length = mgr.count →
      mgr.index ≤ mgr.count →
      mgr.count - mgr.index < fuel →
      args.user_data = ChainUserData.mgrPtr →
      2 ≤ mgr.refs →
      (∀ h ∈ mgr.handshakers, ∀ p, (h.run p).2 = none) →
      ∃ mgr' args',
        runChain fuel mgr args none = some (mgr', args',
          (List.range' mgr.index (mgr.count - mgr.index)).map HSEvent.started ++
            [HSEvent.timerCancel,
             HSEvent.schedTerminal none (ChainUserData.caller mgr.user_data)]) ∧
        mgr'.index = mgr.count ∧ mgr'.refs = mgr.refs - 1 ∧
        mgr'.count = mgr.count ∧
        args'.user_data = ChainUserData.caller mgr.user_data := by
  induction fuel with
  | zero => intro mgr args _ _ hfuel _ _ _; omega
  | succ fuel ih =>
    intro mgr args hlen hidx hfuel hud hrefs2 hsucc
    by_cases hterm : mgr.index = mgr.count
    · have hlock := locked_terminal mgr args none hidx (Or.inr hterm)
      refine ⟨{ mgr with refs := mgr.refs - 1 },
        { args with user_data := ChainUserData.caller mgr.user_data },
        ?_, hterm, rfl, rfl, rfl⟩
      simp only [runChain, hlock]
      rw [unref_snd_of_two_le mgr hrefs2]
      have h0 : mgr.count - mgr.index = 0 := by omega
      rw [h0]
      rfl
    · have hlt : mgr.index < mgr.count := by omega
      have hlock := locked_start mgr args hlt
      have hltl : mgr.index < mgr.handshakers.length := by omega
      have hget : mgr.handshakers[mgr.index]? = some mgr.handshakers[mgr.index] :=
        List.getElem?_eq_getElem hltl
      have hrun0 : (mgr.handshakers[mgr.index].run args.payload).2 = none :=
        hsucc _ (List.getElem_mem hltl) _
      obtain ⟨mgr', args', hrun2, hidx', hrefs', hcnt', haud'⟩ :=
        ih { mgr with index := mgr.index + 1 }
          { args with payload := (mgr.handshakers[mgr.index].run args.payload).1 }
          hlen (by dsimp only; omega) (by dsimp only; omega) hud hrefs2 hsucc
      dsimp only at hidx' hrefs' hcnt' haud'
      rw [hud] at hrun2
      refine ⟨mgr', args', ?_, hidx', hrefs', hcnt', haud'⟩
      simp only [runChain, hlock]
      try dsimp only
      rw [hget]
      try dsimp only
      rw [hud]
      try dsimp only
      rw [hrun0, hrun2]
      have hd : mgr.count - mgr.index = (mgr.count - (mgr.index + 1)) + 1 := by
        omega
      rw [hd, List.range'_succ]
      rfl

/-- When the handshakers before index `j` succeed and the one at `j` fails
with error `e`, the chain starts exactly the handshakers up to and including
`j`, then cancels the timer and schedules the terminal callback once with
exactly `e`. -/
theorem runChain_fail_at (fuel : Nat) :
    ∀ (mgr : grpc_handshake_manager Err E CA U)
      (args : grpc_handshaker_args E CA U) (j : Nat) (e : Err),
      mgr.handshakers.length = mgr.count →
      mgr.count - mgr.index < fuel →
      args.user_data = ChainUserData.mgrPtr →
      2 ≤ mgr.refs →
      mgr.index ≤ j → j < mgr.count →
      (∀ i h, mgr.index ≤ i → i < j → mgr.handshakers[i]? = some h →
        ∀ p, (h.run p).2 = none) →
      (∀ h, mgr.handshakers[j]? = some h → ∀ p, (h.run p).2 = some e) →
      ∃ mgr' args',
        runChain fuel mgr args none = some (mgr', args',
          (List.range' mgr.index (j + 1 - mgr.index)).map HSEvent.started ++
            [HSEvent.timerCancel,
             HSEvent.schedTerminal (some e) (ChainUserData.caller mgr.user_data)]) ∧
        mgr'.index = j + 1 ∧ mgr'.refs = mgr.refs - 1 ∧
        mgr'.count = mgr.count ∧
        args'.user_data = ChainUserData.caller mgr.user_data := by
  induction fuel with
  | zero => intro mgr args j e _ hfuel _ _ hij hjc _ _; omega
  | succ fuel ih =>
    intro mgr args j e hlen hfuel hud hrefs2 hij hjc hpre hfail
    have hlt : mgr.index < mgr.count := by omega
    have hlock := locked_start mgr args hlt
    have hltl : mgr.index < mgr.handshakers.length := by omega
    have hget : mgr.handshakers[mgr.index]? = some mgr.handshakers[mgr.index] :=
      List.getElem?_eq_getElem hltl
    by_cases hje : mgr.index = j
    · have hrun0 : (mgr.handshakers[mgr.index].run args.payload).2 = some e :=
        hfail _ (hje ▸ hget) _
      have hterm := runChain_some_error fuel
        { mgr with index := mgr.index + 1 }
        { args with payload := (mgr.handshakers[mgr.index].run args.payload).1 }
        e (by dsimp only; omega) (by omega) hrefs2
      dsimp only at hterm
      rw [hud] at hterm
      refine ⟨{ mgr with index := mgr.index + 1, refs := mgr.refs - 1 },
        { args with
            payload := (mgr.handshakers[mgr.index].run args.payload).1,
            user_data := ChainUserData.caller mgr.user_data },
        ?_, by dsimp only; omega, rfl, rfl, rfl⟩
      simp only [runChain, hlock]
      try dsimp only
      rw [hget]
      try dsimp only
      rw [hud]
      try dsimp only
      rw [hrun0, hterm]
      have hd : j + 1 - mgr.index = 1 := by omega
      rw [hd, List.range'_succ]
      rfl
    · have hiltj : mgr.index < j := by omega
      have hrun0 : (mgr.handshakers[mgr.index].run args.payload).2 = none :=
        hpre _ _ (le_refl _) hiltj hget _
      obtain ⟨mgr', args', hrun2, hidx', hrefs', hcnt', haud'⟩ :=
        ih { mgr with index := mgr.index + 1 }
          { args with payload := (mgr.handshakers[mgr.index].run args.payload).1 }
          j e hlen (by dsimp only; omega) hud hrefs2 (by dsimp only; omega)
          hjc (fun i h hi1 hi2 hh p => hpre i h (by dsimp only at hi1; omega) hi2 hh p)
          hfail
      dsimp only at hidx' hrefs' hcnt' haud'
      rw [hud] at hrun2
      refine ⟨mgr', args', ?_, hidx', hrefs', hcnt', haud'⟩
      simp only [runChain, hlock]
      try dsimp only
      rw [hget]
      try dsimp only
      rw [hud]
      try dsimp only
      rw [hrun0, hrun2]
      have hd : j + 1 - mgr.index = (j + 1 - (mgr.index + 1)) + 1 := by omega
      rw [hd, List.range'_succ]
      rfl

/-- Unfolding `grpc_handshake_manager_do_handshake` when the
`GPR_ASSERT(mgr->index == 0)` guard holds. -/
lemma do_handshake_eq (mgr : grpc_handshake_manager Err E CA U) (endpoint : E)
    (channel_args : CA) (deadline : Nat) (user_data : U)
    (hidx : mgr.index = 0) :
    grpc_handshake_manager_do_handshake mgr endpoint channel_args deadline
        user_data =
      match runChain (mgr.count + 1)
          { mgr with user_data := some user_data, refs := mgr.refs + 1 + 1 }
          (initial_handshaker_args endpoint channel_args) none with
      | none => none
      | some (mgrf, argsf, evs) =>
          some (mgrf, argsf, HSEvent.timerInit deadline :: evs) := by
  unfold grpc_handshake_manager_do_handshake
  dsimp only
  rw [if_pos hidx]

lemma started_indices_eval (d N : Nat) (e : Option Err) (ud : ChainUserData U) :
    started_indices (HSEvent.timerInit d ::
      ((List.range N).map HSEvent.started ++
        [HSEvent.timerCancel, HSEvent.schedTerminal e ud])) = List.range N := by
  unfold started_indices
  rw [List.filterMap_cons, List.filterMap_append]
  have h1 : ((List.range N).map
      (HSEvent.started : Nat → HSEvent Err U)).filterMap
      (fun ev => match ev with | HSEvent.started i => some i | _ => none) =
      List.range N := by
    induction (List.range N) with
    | nil => rfl
    | cons a t ih =>
      rw [List.map_cons, List.filterMap_cons]
      dsimp only
      rw [ih]
  rw [h1]
  simp

lemma terminal_errors_eval (d N : Nat) (e : Option Err) (ud : ChainUserData U) :
    terminal_errors (HSEvent.timerInit d ::
      ((List.range N).map HSEvent.started ++
        [HSEvent.timerCancel, HSEvent.schedTerminal e ud])) = [e] := by
  unfold terminal_errors
  rw [List.filterMap_cons, List.filterMap_append]
  have h1 : ((List.range N).map
      (HSEvent.started : Nat → HSEvent Err U)).filterMap
      (fun ev => match ev with
        | HSEvent.schedTerminal err _ => some err
        | _ => none) = [] := by
    induction (List.range N) with
    | nil => rfl
    | cons a t ih =>
      rw [List.map_cons, List.filterMap_cons]
      dsimp only
      rw [ih]
  rw [h1]
  rfl

/-! ### The claims -/

/-- C1: for every sequence of N registered handshakers that all complete
without error, a single `do_handshake` invocation produces the trace
"timer armed; handshakers 0 .. N-1 each started exactly once, in
registration order; timer cancelled; terminal callback scheduled exactly
once, last, with the no-error value" — so each handshaker is started exactly
once before the terminal callback, and the terminal callback is scheduled
exactly once with `GRPC_ERROR_NONE`. -/
theorem claim_C1_all_success (hs : List (grpc_handshaker Err E CA))
    (endpoint : E) (channel_args : CA) (deadline : Nat) (user_data : U)
    (hsucc : ∀ h ∈ hs, ∀ p, (h.run p).2 = none) :
    ∃ mgr' args' evs,
      grpc_handshake_manager_do_handshake
          (grpc_handshake_manager_of_list hs) endpoint channel_args deadline
          user_data = some (mgr', args', evs) ∧
      evs = HSEvent.timerInit deadline ::
        ((List.range hs.length).map HSEvent.started ++
          [HSEvent.timerCancel,
           HSEvent.schedTerminal none (ChainUserData.caller (some user_data))]) ∧
      started_indices evs = List.range hs.length ∧
      terminal_errors evs = [none] := by
  have hidx0 : (grpc_handshake_manager_of_list (U := U) hs).index = 0 :=
    of_list_index hs
  obtain ⟨mgr', args', hrun, hidx', hrefs', hcnt', haud'⟩ :=
    runChain_all_none ((grpc_handshake_manager_of_list (U := U) hs).count + 1)
      { refs := (grpc_handshake_manager_of_list (U := U) hs).refs + 1 + 1,
        count := (grpc_handshake_manager_of_list (U := U) hs).count,
        capacity := (grpc_handshake_manager_of_list (U := U) hs).capacity,
        handshakers := (grpc_handshake_manager_of_list (U := U) hs).handshakers,
        index := (grpc_handshake_manager_of_list (U := U) hs).index,
        user_data := some user_data }
      (initial_handshaker_args endpoint channel_args)
      (by dsimp only; rw [of_list_handshakers, of_list_count])
      (by dsimp only; rw [hidx0]; omega)
      (by dsimp only; omega)
      rfl
      (by dsimp only; omega)
      (by dsimp only; rw [of_list_handshakers]; exact hsucc)
  refine ⟨mgr', args', _,
    ?_, rfl, started_indices_eval _ _ _ _, terminal_errors_eval _ _ _ _⟩
  rw [do_handshake_eq _ _ _ _ _ hidx0, hrun]
  dsimp only
  rw [hidx0]
  have hc : (grpc_handshake_manager_of_list (U := U) hs).count - 0 =
      hs.length := by
    rw [of_list_count]
    omega
  rw [hc, ← List.range_eq_range']

/-- Witness for C1 at a concrete input: two always-succeeding handshakers. -/
theorem claim_C1_witness :
    (∀ h ∈ [ok_handshaker, ok_handshaker], ∀ p, (h.run p).2 = none) ∧
    ∃ mgr' args' evs,
      grpc_handshake_manager_do_handshake
          (grpc_handshake_manager_of_list [ok_handshaker, ok_handshaker])
          5 6 9 4 = some (mgr', args', evs) ∧
      evs = HSEvent.timerInit 9 ::
        ((List.range 2).map HSEvent.started ++
          [HSEvent.timerCancel,
           HSEvent.schedTerminal none (ChainUserData.caller (some 4))]) ∧
      started_indices evs = List.range 2 ∧
      terminal_errors evs = [none] := by
  have hsucc : ∀ h ∈ [ok_handshaker, ok_handshaker], ∀ p, (h.run p).2 = none := by
    intro h hm p
    rcases List.mem_cons.mp hm with rfl | hm2
    · rfl
    · rcases List.mem_cons.mp hm2 with rfl | h3
      · rfl
      · cases h3
  exact ⟨hsucc, claim_C1_all_success [ok_handshaker, ok_handshaker] 5 6 9 4 hsucc⟩

/-- C2: if the handshakers before index `j` succeed and the handshaker at
index `j` reports a non-absent error to the advance closure, then the
handshakers after `j` are never started (only indices `0 .. j` ever receive a
start), and the terminal callback is scheduled with exactly the error value
reported by handshaker `j` — the manager passes it through unchanged
(`GRPC_ERROR_REF` returns the same error). -/
theorem claim_C2_error_short_circuit (hs : List (grpc_handshaker Err E CA))
    (j : Nat) (e : Err) (endpoint : E) (channel_args : CA) (deadline : Nat)
    (user_data : U)
    (hj : j < hs.length)
    (hpre : ∀ i h, i < j → hs[i]? = some h → ∀ p, (h.run p).2 = none)
    (hfail : ∀ h, hs[j]? = some h → ∀ p, (h.run p).2 = some e) :
    ∃ mgr' args' evs,
      grpc_handshake_manager_do_handshake
          (grpc_handshake_manager_of_list hs) endpoint channel_args deadline
          user_data = some (mgr', args', evs) ∧
      evs = HSEvent.timerInit deadline ::
        ((List.range (j + 1)).map HSEvent.started ++
          [HSEvent.timerCancel,
           HSEvent.schedTerminal (some e)
             (ChainUserData.caller (some user_data))]) ∧
      started_indices evs = List.range (j + 1) ∧
      (∀ i, HSEvent.started i ∈ evs → i ≤ j) ∧
      terminal_errors evs = [some e] := by
  have hidx0 : (grpc_handshake_manager_of_list (U := U) hs).index = 0 :=
    of_list_index hs
  obtain ⟨mgr', args', hrun, hidx', hrefs', hcnt', haud'⟩ :=
    runChain_fail_at ((grpc_handshake_manager_of_list (U := U) hs).count + 1)
      { refs := (grpc_handshake_manager_of_list (U := U) hs).refs + 1 + 1,
        count := (grpc_handshake_manager_of_list (U := U) hs).count,
        capacity := (grpc_handshake_manager_of_list (U := U) hs).capacity,
        handshakers := (grpc_handshake_manager_of_list (U := U) hs).handshakers,
        index := (grpc_handshake_manager_of_list (U := U) hs).index,
        user_data := some user_data }
      (initial_handshaker_args endpoint channel_args) j e
      (by dsimp only; rw [of_list_handshakers, of_list_count])
      (by dsimp only; omega)
      rfl
      (by dsimp only; omega)
      (by dsimp only; rw [hidx0]; omega)
      (by dsimp only; rw [of_list_count]; omega)
      (by
        dsimp only
        rw [of_list_handshakers]
        intro i h _ hij hh p
        exact hpre i h hij hh p)
      (by
        dsimp only
        rw [of_list_handshakers]
        exact hfail)
  refine ⟨mgr', args', _, ?_, rfl, started_indices_eval _ _ _ _, ?_,
    terminal_errors_eval _ _ _ _⟩
  · rw [do_handshake_eq _ _ _ _ _ hidx0, hrun]
    dsimp only
    rw [hidx0]
    have hc : j + 1 - 0 = j + 1 := by omega
    rw [hc, ← List.range_eq_range']
  · intro i hi
    have hmem : i ∈ started_indices (HSEvent.timerInit deadline ::
        ((List.range (j + 1)).map (HSEvent.started : Nat → HSEvent Err U) ++
          [HSEvent.timerCancel,
           HSEvent.schedTerminal (some e)
             (ChainUserData.caller (some user_data))])) := by
      unfold started_indices
      exact List.mem_filterMap.mpr ⟨HSEvent.started i, hi, rfl⟩
    rw [started_indices_eval] at hmem
    have := List.mem_range.mp hmem
    omega

/-- Witness for C2 at a concrete input: a succeeding handshaker followed by
one that fails with error 7; the third handshaker is never started. -/
theorem claim_C2_witness :
    (1 < [ok_handshaker, failing_handshaker 7, ok_handshaker].length) ∧
    ∃ mgr' args' evs,
      grpc_handshake_manager_do_handshake
          (grpc_handshake_manager_of_list
            [ok_handshaker, failing_handshaker 7, ok_handshaker]) 5 6 9 4 =
        some (mgr', args', evs) ∧
      evs = HSEvent.timerInit 9 ::
        ((List.range (1 + 1)).map HSEvent.started ++
          [HSEvent.timerCancel,
           HSEvent.schedTerminal (some 7) (ChainUserData.caller (some 4))]) ∧
      started_indices evs = List.range (1 + 1) ∧
      (∀ i, HSEvent.started i ∈ evs → i ≤ 1) ∧
      terminal_errors evs = [some 7] := by
  have hpre : ∀ i (h : grpc_handshaker Nat Nat Nat), i < 1 →
      [ok_handshaker, failing_handshaker 7, ok_handshaker][i]? = some h →
      ∀ p, (h.run p).2 = none := by
    intro i h hi hh p
    have hi0 : i = 0 := by omega
    subst hi0
    have hh' : some ok_handshaker = some h := hh
    obtain rfl := Option.some.inj hh'
    rfl
  have hfail : ∀ (h : grpc_handshaker Nat Nat Nat),
      [ok_handshaker, failing_handshaker 7, ok_handshaker][1]? = some h →
      ∀ p, (h.run p).2 = some 7 := by
    intro h hh p
    have hh' : some (failing_handshaker 7) = some h := hh
    obtain rfl := Option.some.inj hh'
    rfl
  exact ⟨by norm_num,
    claim_C2_error_short_circuit
      [ok_handshaker, failing_handshaker 7, ok_handshaker] 1 7 5 6 9 4
      (by norm_num) hpre hfail⟩

/-! ### More trace evaluation lemmas, for the lifecycle claims -/

lemma filterMap_destruction_nil {β : Type} (f : HSEvent Err U → Option β)
    (hf : ∀ e, is_destruction_event e = true → f e = none) (n : Nat) :
    ((destruction_events n : List (HSEvent Err U))).filterMap f = [] := by
  rw [List.filterMap_eq_nil]
  intro a ha
  apply hf
  unfold destruction_events at ha
  rcases List.mem_append.mp ha with h1 | h2
  · obtain ⟨i, _, rfl⟩ := List.mem_map.mp h1
    rfl
  · fin_cases h2 <;> rfl

lemma shutdown_indices_destruction (n : Nat) :
    shutdown_indices ((destruction_events n : List (HSEvent Err U))) = [] := by
  unfold shutdown_indices
  apply filterMap_destruction_nil
  intro e he
  cases e <;> first | rfl | exact absurd he (by simp [is_destruction_event])

lemma terminal_errors_destruction (n : Nat) :
    terminal_errors ((destruction_events n : List (HSEvent Err U))) = [] := by
  unfold terminal_errors
  apply filterMap_destruction_nil
  intro e he
  cases e <;> first | rfl | exact absurd he (by simp [is_destruction_event])

lemma shutdown_indices_map_self (l : List Nat) :
    shutdown_indices
      (l.map (HSEvent.shutdownHandshaker : Nat → HSEvent Err U)) = l := by
  unfold shutdown_indices
  induction l with
  | nil => rfl
  | cons a t ih =>
    rw [List.map_cons, List.filterMap_cons]
    dsimp only
    rw [ih]

lemma terminal_errors_map_shutdown (l : List Nat) :
    terminal_errors
      (l.map (HSEvent.shutdownHandshaker : Nat → HSEvent Err U)) = [] := by
  unfold terminal_errors
  induction l with
  | nil => rfl
  | cons a t ih =>
    rw [List.map_cons, List.filterMap_cons]
    dsimp only
    rw [ih]

lemma unref_snd_cases (mgr : grpc_handshake_manager Err E CA U) :
    (grpc_handshake_manager_unref mgr).2 = [] ∨
    (grpc_handshake_manager_unref mgr).2 = destruction_events mgr.count := by
  unfold grpc_handshake_manager_unref
  dsimp only
  split
  · right; rfl
  · left; rfl

lemma on_timeout_cancelled (mgr : grpc_handshake_manager Err E CA U) (e : Err) :
    on_timeout mgr (some e) = grpc_handshake_manager_unref mgr := by
  unfold on_timeout
  rw [if_neg (by simp)]

lemma filter_destruction_cons_timerInit (d : Nat) (evs : List (HSEvent Err U)) :
    (HSEvent.timerInit d :: evs).filter is_destruction_event =
      evs.filter is_destruction_event := rfl

lemma terminal_events_cons_timerInit (d : Nat) (evs : List (HSEvent Err U)) :
    terminal_events (HSEvent.timerInit d :: evs) = terminal_events evs := rfl

/-- C3: over a full lifecycle the manager's reference count is held by
exactly three co-owners.  The manager is created with refcount 1 (the
caller); `do_handshake` acquires one reference for the armed timer and one
for the running chain; the chain releases exactly one reference at its
terminal condition (leaving 2); the timeout callback — here running after
cancellation — releases exactly the timer's reference (leaving 1); the
caller's `destroy` drops the last one, and only then, exactly once, are the
destruction actions performed: every registered handshaker destroyed in
registration order, backing storage freed, lock destroyed, manager freed.
No destruction event appears anywhere earlier in the trace. -/
theorem claim_C3_refcount_lifecycle (hs : List (grpc_handshaker Err E CA))
    (endpoint : E) (channel_args : CA) (deadline : Nat) (user_data : U)
    (cancel_err : Err) :
    (grpc_handshake_manager_of_list (U := U) hs).refs = 1 ∧
    ∃ mgr1 args1 evs1,
      grpc_handshake_manager_do_handshake
          (grpc_handshake_manager_of_list hs) endpoint channel_args deadline
          user_data = some (mgr1, args1, evs1) ∧
      mgr1.refs = 2 ∧
      evs1.filter is_destruction_event = [] ∧
      (on_timeout mgr1 (some cancel_err)).1.refs = 1 ∧
      (on_timeout mgr1 (some cancel_err)).2 = [] ∧
      (grpc_handshake_manager_destroy
        (on_timeout mgr1 (some cancel_err)).1).1.refs = 0 ∧
      (grpc_handshake_manager_destroy
        (on_timeout mgr1 (some cancel_err)).1).2 =
        (List.range hs.length).map HSEvent.destroyHandshaker ++
          [HSEvent.freeHandshakers, HSEvent.muDestroy, HSEvent.freeMgr] := by
  have hidx0 : (grpc_handshake_manager_of_list (U := U) hs).index = 0 :=
    of_list_index hs
  have hrefs1 : (grpc_handshake_manager_of_list (U := U) hs).refs = 1 :=
    of_list_refs hs
  obtain ⟨mgr', args', evs, hrun, hcnt, hhs, hcap, hudm, hmono, hbound,
    hrefs, haud, hterm, hdest⟩ :=
    runChain_total ((grpc_handshake_manager_of_list (U := U) hs).count + 1)
      { refs := (grpc_handshake_manager_of_list (U := U) hs).refs + 1 + 1,
        count := (grpc_handshake_manager_of_list (U := U) hs).count,
        capacity := (grpc_handshake_manager_of_list (U := U) hs).capacity,
        handshakers := (grpc_handshake_manager_of_list (U := U) hs).handshakers,
        index := (grpc_handshake_manager_of_list (U := U) hs).index,
        user_data := some user_data }
      (initial_handshaker_args endpoint channel_args) none
      (by dsimp only; rw [of_list_handshakers, of_list_count])
      (by dsimp only; rw [hidx0]; omega)
      (by dsimp only; omega)
      rfl
  dsimp only at hcnt hrefs hdest
  rw [hrefs1] at hrefs
  have hmrefs : mgr'.refs = 2 := by omega
  have hmcnt : mgr'.count = hs.length := by
    rw [hcnt, of_list_count]
  refine ⟨hrefs1, mgr', args', HSEvent.timerInit deadline :: evs, ?_, hmrefs,
    ?_, ?_, ?_, ?_, ?_⟩
  · rw [do_handshake_eq _ _ _ _ _ hidx0, hrun]
  · rw [filter_destruction_cons_timerInit]
    exact hdest (by rw [hrefs1]; omega)
  · rw [on_timeout_cancelled, unref_fst]
    dsimp only
    omega
  · rw [on_timeout_cancelled]
    exact unref_snd_of_two_le mgr' (by omega)
  · unfold grpc_handshake_manager_destroy
    rw [on_timeout_cancelled, unref_fst]
    rw [unref_fst]
    dsimp only
    omega
  · unfold grpc_handshake_manager_destroy
    rw [on_timeout_cancelled, unref_fst]
    rw [unref_snd_of_one _ (by dsimp only; omega)]
    dsimp only
    rw [hmcnt]
    rfl

/-- C4: the timeout callback shuts the manager down (broadcasting `shutdown`
to every registered handshaker) exactly when the timer actually fired (its
error argument is the no-error value); whether fired or cancelled it releases
exactly one reference to the manager, and it never itself schedules the
terminal callback. -/
theorem claim_C4_on_timeout (mgr : grpc_handshake_manager Err E CA U)
    (error : Option Err) :
    (on_timeout mgr error).1.refs = mgr.refs - 1 ∧
    shutdown_indices (on_timeout mgr error).2 =
      (if error.isNone = true then List.range mgr.count else []) ∧
    terminal_errors (on_timeout mgr error).2 = [] ∧
    (on_timeout mgr error).1.count = mgr.count ∧
    (on_timeout mgr error).1.index = mgr.index := by
  unfold on_timeout
  by_cases herr : error.isNone = true
  · rw [if_pos herr]
    unfold grpc_handshake_manager_shutdown
    dsimp only
    refine ⟨?_, ?_, ?_, ?_, ?_⟩
    · rw [unref_fst]
    · rw [if_pos herr]
      unfold shutdown_indices
      rw [List.filterMap_append]
      have h1 := @shutdown_indices_map_self Err U (List.range mgr.count)
      unfold shutdown_indices at h1
      rw [h1]
      rcases unref_snd_cases mgr with hc | hc <;> rw [hc]
      · simp
      · have h2 := @shutdown_indices_destruction Err U mgr.count
        unfold shutdown_indices at h2
        rw [h2]
        simp
    · unfold terminal_errors
      rw [List.filterMap_append]
      have h1 := @terminal_errors_map_shutdown Err U (List.range mgr.count)
      unfold terminal_errors at h1
      rw [h1]
      rcases unref_snd_cases mgr with hc | hc <;> rw [hc]
      · rfl
      · have h2 := @terminal_errors_destruction Err U mgr.count
        unfold terminal_errors at h2
        rw [h2]
        rfl
    · rw [unref_fst]
    · rw [unref_fst]
  · rw [if_neg herr]
    refine ⟨?_, ?_, ?_, ?_, ?_⟩
    · rw [unref_fst]
    · rw [if_neg herr]
      rcases unref_snd_cases mgr with hc | hc <;> rw [hc]
      · rfl
      · exact shutdown_indices_destruction mgr.count
    · rcases unref_snd_cases mgr with hc | hc <;> rw [hc]
      · rfl
      · exact terminal_errors_destruction mgr.count
    · rw [unref_fst]
    · rw [unref_fst]

/-- C7: `shutdown` invokes the shutdown operation of every registered
handshaker, in registration order, regardless of the cursor position, and
leaves the manager's state — cursor, count, reference count, everything —
untouched; it schedules no terminal callback. -/
theorem claim_C7_shutdown_frame (mgr : grpc_handshake_manager Err E CA U) :
    (grpc_handshake_manager_shutdown mgr).1 = mgr ∧
    (grpc_handshake_manager_shutdown mgr).2 =
      (List.range mgr.count).map HSEvent.shutdownHandshaker ∧
    shutdown_indices (grpc_handshake_manager_shutdown mgr).2 =
      List.range mgr.count ∧
    terminal_errors (grpc_handshake_manager_shutdown mgr).2 = [] :=
  ⟨rfl, rfl, shutdown_indices_map_self _, terminal_errors_map_shutdown _⟩

/-- C8: with zero registered handshakers, `do_handshake` (for any deadline)
arms the timer and immediately reaches the terminal condition: the timer is
cancelled, the terminal callback is scheduled exactly once with no error and
with the caller's user data, no handshaker is ever started, and the endpoint
(and whole payload) in the args is the caller's input unchanged. -/
theorem claim_C8_zero_handshakers (endpoint : E) (channel_args : CA)
    (deadline : Nat) (user_data : U) :
    grpc_handshake_manager_do_handshake
        (grpc_handshake_manager_of_list ([] : List (grpc_handshaker Err E CA)))
        endpoint channel_args deadline user_data =
      some ({ refs := 2, count := 0, capacity := 0, handshakers := [],
              index := 0, user_data := some user_data },
        { payload := { endpoint := endpoint, channel_args := channel_args,
                       read_buffer := [] },
          user_data := ChainUserData.caller (some user_data) },
        [HSEvent.timerInit deadline, HSEvent.timerCancel,
         HSEvent.schedTerminal none (ChainUserData.caller (some user_data))]) ∧
    started_indices
      [HSEvent.timerInit deadline, HSEvent.timerCancel,
       HSEvent.schedTerminal (none : Option Err)
         (ChainUserData.caller (some user_data))] = [] ∧
    terminal_errors
      [HSEvent.timerInit deadline, HSEvent.timerCancel,
       HSEvent.schedTerminal (none : Option Err)
         (ChainUserData.caller (some user_data))] = [none] :=
  ⟨rfl, rfl, rfl⟩

/-- C5: the cursor starts at 0, is unchanged by `add` (so non-decreasing),
and never exceeds the registered handshaker count — neither after `add` nor
at any point of a `do_handshake` run, whose advance steps only increase it.
`do_handshake` returning a value (rather than the `none` that models an
assertion failure) certifies that the `GPR_ASSERT(mgr->index <= mgr->count)`
at the entry of every advance step held throughout; and whatever the
handshakers do — however many run, with or without an error — the terminal
callback is scheduled exactly once. -/
theorem claim_C5_cursor_invariant (hs : List (grpc_handshaker Err E CA))
    (h : grpc_handshaker Err E CA) (endpoint : E) (channel_args : CA)
    (deadline : Nat) (user_data : U) :
    (grpc_handshake_manager_of_list (U := U) hs).index = 0 ∧
    (grpc_handshake_manager_add (grpc_handshake_manager_of_list (U := U) hs)
      h).index = (grpc_handshake_manager_of_list (U := U) hs).index ∧
    (grpc_handshake_manager_of_list (U := U) hs).index ≤
      (grpc_handshake_manager_of_list (U := U) hs).count ∧
    (grpc_handshake_manager_add (grpc_handshake_manager_of_list (U := U) hs)
      h).index ≤
      (grpc_handshake_manager_add (grpc_handshake_manager_of_list (U := U) hs)
        h).count ∧
    ∃ mgr' args' evs,
      grpc_handshake_manager_do_handshake
          (grpc_handshake_manager_of_list hs) endpoint channel_args deadline
          user_data = some (mgr', args', evs) ∧
      (grpc_handshake_manager_of_list (U := U) hs).index ≤ mgr'.index ∧
      mgr'.index ≤ mgr'.count ∧
      (terminal_events evs).length = 1 := by
  have hidx0 : (grpc_handshake_manager_of_list (U := U) hs).index = 0 :=
    of_list_index hs
  obtain ⟨mgr', args', evs, hrun, hcnt, hhs, hcap, hudm, hmono, hbound,
    hrefs, haud, hterm, hdest⟩ :=
    runChain_total ((grpc_handshake_manager_of_list (U := U) hs).count + 1)
      { refs := (grpc_handshake_manager_of_list (U := U) hs).refs + 1 + 1,
        count := (grpc_handshake_manager_of_list (U := U) hs).count,
        capacity := (grpc_handshake_manager_of_list (U := U) hs).capacity,
        handshakers := (grpc_handshake_manager_of_list (U := U) hs).handshakers,
        index := (grpc_handshake_manager_of_list (U := U) hs).index,
        user_data := some user_data }
      (initial_handshaker_args endpoint channel_args) none
      (by dsimp only; rw [of_list_handshakers, of_list_count])
      (by dsimp only; rw [hidx0]; omega)
      (by dsimp only; omega)
      rfl
  dsimp only at hmono
  refine ⟨hidx0, (add_fields _ h).1, ?_, ?_, mgr', args',
    HSEvent.timerInit deadline :: evs, ?_, ?_, hbound, ?_⟩
  · rw [hidx0]; omega
  · rw [(add_fields _ h).1, (add_fields _ h).2.2.2.1, hidx0]; omega
  · rw [do_handshake_eq _ _ _ _ _ hidx0, hrun]
  · omega
  · rw [terminal_events_cons_timerInit]
    obtain ⟨e', he'⟩ := hterm
    rw [he']
    rfl

/-- C6: `do_handshake` stores the manager itself in the args record's opaque
user-data field before chaining begins (so the advance closure can recover
the manager from the args alone — the run model returns `none` whenever that
recovery would fail, so a `some` result certifies it always succeeded), and
at the terminal condition the field is overwritten with the caller-supplied
user data before the terminal callback is scheduled: the terminal callback
observes the caller's user data in the args, never the manager pointer. -/
theorem claim_C6_user_data_aliasing (hs : List (grpc_handshaker Err E CA))
    (endpoint : E) (channel_args : CA) (deadline : Nat) (user_data : U) :
    (initial_handshaker_args (U := U) endpoint channel_args).user_data =
      ChainUserData.mgrPtr ∧
    ∃ mgr' args' evs,
      grpc_handshake_manager_do_handshake
          (grpc_handshake_manager_of_list hs) endpoint channel_args deadline
          user_data = some (mgr', args', evs) ∧
      args'.user_data = ChainUserData.caller (some user_data) ∧
      (∃ e', terminal_events evs =
        [HSEvent.schedTerminal e' (ChainUserData.caller (some user_data))]) := by
  have hidx0 : (grpc_handshake_manager_of_list (U := U) hs).index = 0 :=
    of_list_index hs
  obtain ⟨mgr', args', evs, hrun, hcnt, hhs, hcap, hudm, hmono, hbound,
    hrefs, haud, hterm, hdest⟩ :=
    runChain_total ((grpc_handshake_manager_of_list (U := U) hs).count + 1)
      { refs := (grpc_handshake_manager_of_list (U := U) hs).refs + 1 + 1,
        count := (grpc_handshake_manager_of_list (U := U) hs).count,
        capacity := (grpc_handshake_manager_of_list (U := U) hs).capacity,
        handshakers := (grpc_handshake_manager_of_list (U := U) hs).handshakers,
        index := (grpc_handshake_manager_of_list (U := U) hs).index,
        user_data := some user_data }
      (initial_handshaker_args endpoint channel_args) none
      (by dsimp only; rw [of_list_handshakers, of_list_count])
      (by dsimp only; rw [hidx0]; omega)
      (by dsimp only; omega)
      rfl
  dsimp only at haud hterm
  refine ⟨rfl, mgr', args', HSEvent.timerInit deadline :: evs, ?_, haud, ?_⟩
  · rw [do_handshake_eq _ _ _ _ _ hidx0, hrun]
  · rw [terminal_events_cons_timerInit]
    exact hterm

open Classical in
/-- C9: `add` reallocates the backing storage exactly when the pre-insertion
count is 0 (allocating 2 slots) or when it is at least 2 and an exact power
of two (allocating twice the count), and in no other case — in particular a
pre-insertion count of 1 triggers no growth; the appended handshaker is
always stored at the index equal to the pre-insertion count, and the count
increases by exactly one. -/
theorem claim_C9_growth_policy :
    (∀ c : Nat, add_realloc_count c =
      if c = 0 then 2
      else if 2 ≤ c ∧ ∃ j, c = 2 ^ j then 2 * c
      else 0) ∧
    (∀ (mgr : grpc_handshake_manager Err E CA U) (h : grpc_handshaker Err E CA),
      (grpc_handshake_manager_add mgr h).count = mgr.count + 1) ∧
    (∀ (mgr : grpc_handshake_manager Err E CA U) (h : grpc_handshaker Err E CA),
      (grpc_handshake_manager_add mgr h).capacity =
        if add_realloc_count mgr.count = 0 then mgr.capacity
        else add_realloc_count mgr.count) ∧
    (∀ (hs : List (grpc_handshaker Err E CA)) (h : grpc_handshaker Err E CA),
      ((grpc_handshake_manager_add (grpc_handshake_manager_of_list (U := U) hs)
        h).handshakers)[hs.length]? = some h) := by
  refine ⟨?_, ?_, ?_, ?_⟩
  · intro c
    unfold add_realloc_count
    by_cases hc0 : c = 0
    · rw [if_pos hc0, if_pos hc0]
    · rw [if_neg hc0, if_neg hc0]
      by_cases hp : 2 ≤ c ∧ is_power_of_2 c = true
      · rw [if_pos hp,
          if_pos ⟨hp.1, (is_power_of_2_iff (by omega)).1 hp.2⟩]
        ring
      · rw [if_neg hp, if_neg (fun hcon =>
          hp ⟨hcon.1, (is_power_of_2_iff (by omega)).2 hcon.2⟩)]
  · intro mgr h
    exact (add_fields mgr h).2.2.2.1
  · intro mgr h
    rw [add_capacity]
    rcases Nat.eq_zero_or_pos (add_realloc_count mgr.count) with h0 | h0
    · rw [h0]
      simp
    · rw [if_pos h0, if_neg (by omega)]
  · intro hs h
    rw [(add_fields _ h).2.2.2.2, of_list_handshakers]
    exact List.getElem?_concat_length hs h

/-- C10: starting from a fresh manager, after any sequence of `add` calls the
count never exceeds the allocated capacity of the backing array — after the
first add the capacity is 2, and from count 2 onward it is the smallest power
of two that is at least the count — and the insertion that `add` performs at
index `count` lands strictly below the (possibly just grown) capacity; in
particular in the count = 1 case, where no reallocation occurs, the write is
still in bounds. -/
theorem claim_C10_capacity_bounds (hs : List (grpc_handshaker Err E CA))
    (h : grpc_handshaker Err E CA) :
    (grpc_handshake_manager_of_list (U := U) hs).count = hs.length ∧
    (grpc_handshake_manager_of_list (U := U) hs).count ≤
      (grpc_handshake_manager_of_list (U := U) hs).capacity ∧
    (grpc_handshake_manager_of_list (U := U) hs).count <
      (grpc_handshake_manager_add (grpc_handshake_manager_of_list (U := U) hs)
        h).capacity ∧
    (hs.length = 1 → (grpc_handshake_manager_of_list (U := U) hs).capacity = 2) ∧
    (2 ≤ hs.length →
      (∃ k, (grpc_handshake_manager_of_list (U := U) hs).capacity = 2 ^ k) ∧
      ∀ j, hs.length ≤ 2 ^ j →
        (grpc_handshake_manager_of_list (U := U) hs).capacity ≤ 2 ^ j) := by
  obtain ⟨hinv0, hinv1⟩ := capacity_inv_of_list (U := U) hs
  have hcnt := of_list_count (U := U) hs
  refine ⟨hcnt, ?_, ?_, ?_, ?_⟩
  · rcases Nat.eq_zero_or_pos
        (grpc_handshake_manager_of_list (U := U) hs).count with h0 | h1
    · rw [h0, hinv0 h0]
    · obtain ⟨k, _, hcap, hle, _⟩ := hinv1 h1
      omega
  · obtain ⟨hinv0', hinv1'⟩ :=
      capacity_inv_add _ h (capacity_inv_of_list (U := U) hs)
    have hcnt' := (add_fields (grpc_handshake_manager_of_list (U := U) hs)
      h).2.2.2.1
    obtain ⟨k, _, hcap', hle', _⟩ := hinv1' (by omega)
    omega
  · intro h1
    obtain ⟨k, hk1, hcap, hle, htight⟩ := hinv1 (by omega)
    have hmax : max (grpc_handshake_manager_of_list (U := U) hs).count 2 = 2 := by
      omega
    rw [hmax] at htight
    have hk : k = 1 := by
      by_contra hk0
      have h2le : 2 ≤ 2 ^ (k - 1) := by
        calc (2 : Nat) = 2 ^ 1 := by norm_num
        _ ≤ 2 ^ (k - 1) := Nat.pow_le_pow_right (by norm_num) (by omega)
      omega
    rw [hcap, hk]
    rfl
  · intro h2
    obtain ⟨k, hk1, hcap, hle, htight⟩ := hinv1 (by omega)
    have hmax : max (grpc_handshake_manager_of_list (U := U) hs).count 2 =
        (grpc_handshake_manager_of_list (U := U) hs).count := by omega
    rw [hmax] at htight
    refine ⟨⟨k, hcap⟩, ?_⟩
    intro j hj
    rw [hcap]
    by_contra hlt
    have hjk : j < k := by
      by_contra hkj
      have : 2 ^ k ≤ 2 ^ j := Nat.pow_le_pow_right (by norm_num) (by omega)
      omega
    have : 2 ^ j ≤ 2 ^ (k - 1) := Nat.pow_le_pow_right (by norm_num) (by omega)
    omega

/-- Witness for C10 at a concrete input: three handshakers give count 3,
capacity 4 = 2 ^ 2, the smallest power of two at least 3. -/
theorem claim_C10_witness :
    (2 : Nat) ≤ [ok_handshaker, ok_handshaker, ok_handshaker].length ∧
    (∃ k, (grpc_handshake_manager_of_list (U := Nat)
      [ok_handshaker, ok_handshaker, ok_handshaker]).capacity = 2 ^ k) ∧
    (grpc_handshake_manager_of_list (U := Nat)
      [ok_handshaker, ok_handshaker, ok_handshaker]).capacity ≤ 2 ^ 2 := by
  have h := claim_C10_capacity_bounds (U := Nat)
    [ok_handshaker, ok_handshaker, ok_handshaker] ok_handshaker
  have h2 := h.2.2.2.2 (by norm_num)
  exact ⟨by norm_num, h2.1, h2.2 2 (by norm_num)⟩

end HandshakerModel
